import Mathlib

/-!
Shallow embedding of the CHIP-8 interpreter (src/: cpu.rs, ram.rs, timer.rs,
chip8.rs, constant.rs).  Machine bytes and words are `Nat` with explicit
`% 256` / masking where the Rust code casts or wraps; memory is a total
function `Nat → Nat` (Rust's `[u8; 4096]`, out-of-range indices irrelevant
to the properties below except where a panic is modelled explicitly);
fallible or panicking paths return `Option`.
-/

namespace Chip8

/-- constant.rs -/
def MEMORY_SIZE : Nat := 4096

def CHIP8_DISPLAY_WIDTH : Nat := 64

def CHIP8_DISPLAY_HEIGHT : Nat := 32

def FONT_LOCATION : Nat := 0x50

def ROM_START_LOCATION : Nat := 0x200

/-- cpu.rs: `enum AluOp` -/
inductive AluOp where
  | LoadRegReg
  | Or
  | And
  | Xor
  | AddRegReg
  | Sub
  | ShiftRight
  | SubNeg
  | ShiftLeft
deriving DecidableEq, Repr

/-- cpu.rs: `enum Instruction`; fields are the raw `u8`/`u16` values. -/
inductive Instruction where
  | ClearScreen
  | Return
  | Jump (nnn : Nat)
  | CallSub (nnn : Nat)
  | SkipEq (x nn : Nat)
  | SkipNEq (x nn : Nat)
  | SkipRegEq (x y : Nat)
  | Set (x nn : Nat)
  | Add (x nn : Nat)
  | AluOperation (x y : Nat) (operation : AluOp)
  | SkipRegNEq (x y : Nat)
  | SetIndex (nnn : Nat)
  | JumpWithOffset (nnn : Nat)
  | Random (x nn : Nat)
  | Display (x y height : Nat)
  | SkipIfPressed (x : Nat)
  | SkipIfNotPressed (x : Nat)
  | GetDelayTimer (x : Nat)
  | WaitForKey (x : Nat)
  | SetDelayTimer (x : Nat)
  | SetSoundTimer (x : Nat)
  | AddToIndex (x : Nat)
  | SetIndexToFontLocation (x : Nat)
  | BCDConversion (x : Nat)
  | Store (x : Nat)
  | Load (x : Nat)
  | Unknown (w : Nat)
deriving DecidableEq, Repr

/-- cpu.rs: `CPU::decode`.  The input is the fetched 16-bit word (`w < 65536`).
`none` models the `unsafe { unreachable_unchecked() }` default arm; every
other arm produces `some`.  Casts `as u8` are `% 256`. -/
def decode (w : Nat) : Option Instruction :=
  let low_byte := w % 256
  let high_byte := (w >>> 8) % 256
  let x := high_byte &&& 0x0F
  let y := (low_byte &&& 0xF0) >>> 4
  let nn := low_byte
  let nnn := w &&& 0x0FFF
  let opcode := high_byte &&& 0xF0
  if opcode = 0x00 then
    if low_byte = 0xE0 then some .ClearScreen
    else if low_byte = 0xEE then some .Return
    else some (.Unknown w)
  else if opcode = 0x10 then some (.Jump nnn)
  else if opcode = 0x20 then some (.CallSub nnn)
  else if opcode = 0x30 then some (.SkipEq x nn)
  else if opcode = 0x40 then some (.SkipNEq x nn)
  else if opcode = 0x50 then some (.SkipRegEq x y)
  else if opcode = 0x60 then some (.Set x nn)
  else if opcode = 0x70 then some (.Add x nn)
  else if opcode = 0x80 then
    let lo := low_byte &&& 0x0F
    if lo = 0x0 then some (.AluOperation x y .LoadRegReg)
    else if lo = 0x1 then some (.AluOperation x y .Or)
    else if lo = 0x2 then some (.AluOperation x y .And)
    else if lo = 0x3 then some (.AluOperation x y .Xor)
    else if lo = 0x4 then some (.AluOperation x y .AddRegReg)
    else if lo = 0x5 then some (.AluOperation x y .Sub)
    else if lo = 0x6 then some (.AluOperation x y .ShiftRight)
    else if lo = 0x7 then some (.AluOperation x y .SubNeg)
    else if lo = 0xE then some (.AluOperation x y .ShiftLeft)
    else some (.Unknown w)
  else if opcode = 0x90 then some (.SkipRegNEq x y)
  else if opcode = 0xA0 then some (.SetIndex nnn)
  else if opcode = 0xB0 then some (.JumpWithOffset nnn)
  else if opcode = 0xC0 then some (.Random x nn)
  else if opcode = 0xD0 then some (.Display x y (low_byte &&& 0x0F))
  else if opcode = 0xE0 then
    if low_byte = 0x9E then some (.SkipIfPressed x)
    else if low_byte = 0xA1 then some (.SkipIfNotPressed x)
    else some (.Unknown w)
  else if opcode = 0xF0 then
    if low_byte = 0x07 then some (.GetDelayTimer x)
    else if low_byte = 0x0A then some (.WaitForKey x)
    else if low_byte = 0x15 then some (.SetDelayTimer x)
    else if low_byte = 0x18 then some (.SetSoundTimer x)
    else if low_byte = 0x1E then some (.AddToIndex x)
    else if low_byte = 0x29 then some (.SetIndexToFontLocation x)
    else if low_byte = 0x33 then some (.BCDConversion x)
    else if low_byte = 0x55 then some (.Store x)
    else if low_byte = 0x65 then some (.Load x)
    else some (.Unknown w)
  else none

set_option maxRecDepth 4096 in
/-- The opcode nibble `high_byte & 0xF0` of any byte is one of the sixteen
values matched by `CPU::decode`. -/
theorem land240_cases : ∀ h : Nat, h < 256 →
    (h &&& 240 = 0x00 ∨ h &&& 240 = 0x10 ∨ h &&& 240 = 0x20 ∨
     h &&& 240 = 0x30 ∨ h &&& 240 = 0x40 ∨ h &&& 240 = 0x50 ∨
     h &&& 240 = 0x60 ∨ h &&& 240 = 0x70 ∨ h &&& 240 = 0x80 ∨
     h &&& 240 = 0x90 ∨ h &&& 240 = 0xA0 ∨ h &&& 240 = 0xB0 ∨
     h &&& 240 = 0xC0 ∨ h &&& 240 = 0xD0 ∨ h &&& 240 = 0xE0 ∨
     h &&& 240 = 0xF0) := by decide

/-- C5: decode is total — the `unreachable_unchecked` default arm is never
taken: every 16-bit word decodes to `some` instruction. -/
theorem decode_total (w : Fin 65536) : (decode w.val).isSome = true := by
  have hhb : (w.val >>> 8) % 256 < 256 := Nat.mod_lt _ (by norm_num)
  have hc := land240_cases _ hhb
  simp only [decode]
  rcases hc with h|h|h|h|h|h|h|h|h|h|h|h|h|h|h|h <;>
    simp only [h] <;> simp <;> (repeat' split) <;> simp

/-- Range constraints on decoded fields: register indices `x`,`y` fit the
16-entry register file, `nnn` is 12 bits, `height` is a nibble. -/
def fieldsOk : Instruction → Prop
  | .ClearScreen | .Return | .Unknown _ => True
  | .Jump nnn | .CallSub nnn | .SetIndex nnn | .JumpWithOffset nnn => nnn ≤ 0xFFF
  | .SkipEq x _ | .SkipNEq x _ | .Set x _ | .Add x _ | .Random x _ => x ≤ 15
  | .SkipRegEq x y | .SkipRegNEq x y => x ≤ 15 ∧ y ≤ 15
  | .AluOperation x y _ => x ≤ 15 ∧ y ≤ 15
  | .Display x y height => x ≤ 15 ∧ y ≤ 15 ∧ height ≤ 15
  | .SkipIfPressed x | .SkipIfNotPressed x | .GetDelayTimer x | .WaitForKey x
  | .SetDelayTimer x | .SetSoundTimer x | .AddToIndex x
  | .SetIndexToFontLocation x | .BCDConversion x | .Store x | .Load x => x ≤ 15

set_option maxHeartbeats 2000000 in
/-- C10: every instruction produced by `decode` has its register indices in
[0,15], `nnn` in [0,0xFFF] and `height` in [0,15]; register-file accesses
`registers[x]`, `registers[y]` in `execute` are therefore in bounds. -/
theorem decode_fields (w : Fin 65536) (i : Instruction)
    (hdi : decode w.val = some i) : fieldsOk i := by
  have hhb : (w.val >>> 8) % 256 < 256 := Nat.mod_lt _ (by norm_num)
  have hc := land240_cases _ hhb
  have hx : (w.val >>> 8) % 256 &&& 15 ≤ 15 := Nat.and_le_right
  have hy : (w.val % 256 &&& 240) >>> 4 ≤ 15 := by
    have h240 : w.val % 256 &&& 240 ≤ 240 := Nat.and_le_right
    have : (w.val % 256 &&& 240) >>> 4 = (w.val % 256 &&& 240) / 2 ^ 4 :=
      Nat.shiftRight_eq_div_pow _ _
    rw [this]
    omega
  have hn : w.val &&& 4095 ≤ 4095 := Nat.and_le_right
  have hh : w.val % 256 &&& 15 ≤ 15 := Nat.and_le_right
  simp only [decode] at hdi
  rcases hc with h|h|h|h|h|h|h|h|h|h|h|h|h|h|h|h <;> simp only [h] at hdi <;>
    simp at hdi <;> (repeat' split at hdi) <;>
    (try simp only [Option.some.injEq] at hdi) <;> subst hdi <;>
    simp only [fieldsOk] <;> trivial

/-- Witness for C10: the decoded `Jump` at word 0x1ABC has `nnn` in range. -/
theorem decode_fields_witness : fieldsOk (Instruction.Jump 0xABC) :=
  decode_fields ⟨0x1ABC, by decide⟩ (Instruction.Jump 0xABC) (by decide)

/-- cpu.rs: a register-file write `registers[x] = v`. -/
def regWrite (regs : Fin 16 → Nat) (x : Fin 16) (v : Nat) : Fin 16 → Nat :=
  fun j => if j = x then v else regs j

/-- cpu.rs: `CPU::execute`, `AluOperation` arm.  Registers hold bytes, so
wrapping `u8` arithmetic is `% 256` (the subtraction arms use the wrapping
formula valid for byte-sized register contents).  In `ShiftRight`/`ShiftLeft`
the shifted register is read after the write to `registers[y]`, exactly as in
the source. -/
def execAluOp (regs : Fin 16 → Nat) (x y : Fin 16) (operation : AluOp) :
    Fin 16 → Nat :=
  match operation with
  | .LoadRegReg => regWrite regs x (regs y)
  | .Or => regWrite regs x (regs x ||| regs y)
  | .And => regWrite regs x (regs x &&& regs y)
  | .Xor => regWrite regs x (regs x ^^^ regs y)
  | .AddRegReg =>
      let sum := regs x + regs y
      let regs1 := regWrite regs x (sum % 256)
      regWrite regs1 15 (if 256 ≤ sum then 1 else 0)
  | .Sub =>
      let overflow := regs x < regs y
      let regs1 := regWrite regs x ((regs x + 256 - regs y) % 256)
      regWrite regs1 15 (if overflow then 0 else 1)
  | .ShiftRight =>
      let regs1 := regWrite regs y (if regs x &&& 0x01 = 1 then 1 else 0)
      regWrite regs1 x (regs1 x >>> 1)
  | .SubNeg =>
      let overflow := regs y < regs x
      let regs1 := regWrite regs x ((regs y + 256 - regs x) % 256)
      regWrite regs1 15 (if overflow then 0 else 1)
  | .ShiftLeft =>
      let regs1 := regWrite regs y (if regs x &&& 0x80 = 0x80 then 1 else 0)
      regWrite regs1 x ((regs1 x <<< 1) % 256)

/-- C6 counterexample: with x = y = 0xF and V15 = 200, `AddRegReg` leaves the
result register V15 holding the overflow flag 1, not the wrapped sum 144:
the flag write to VF comes after and overwrites the result. -/
theorem addRegReg_x15_counterexample :
    execAluOp (fun _ => 200) 15 15 .AddRegReg 15 ≠ (200 + 200) % 256 := by
  decide

/-- C6 (amended): `AddRegReg` always sets VF to 1 exactly when the unsigned
sum exceeds 255 (else 0); for every x ≠ 0xF the result register Vx holds the
sum mod 256 (for x = 0xF the flag overwrites the result). -/
theorem addRegReg_flag_and_result (regs : Fin 16 → Nat) (x y : Fin 16) :
    execAluOp regs x y .AddRegReg 15 = (if 255 < regs x + regs y then 1 else 0)
    ∧ (x ≠ 15 →
        execAluOp regs x y .AddRegReg x = (regs x + regs y) % 256) := by
  unfold execAluOp regWrite
  constructor
  · simp only [if_pos rfl]
    split <;> split <;> first | rfl | omega
  · intro hx15
    simp [hx15]

/-- Witness for C6: at x = 0, y = 1 with both registers 200, VF becomes 1 and
V0 becomes 144. -/
theorem addRegReg_flag_and_result_witness :
    execAluOp (fun _ => 200) 0 1 .AddRegReg 15 = 1 ∧
    execAluOp (fun _ => 200) 0 1 .AddRegReg 0 = 144 := by
  have h := addRegReg_flag_and_result (fun _ => 200) 0 1
  refine ⟨?_, ?_⟩
  · rw [h.1]; decide
  · rw [h.2 (by decide)]

/-- A single memory write `memory[a] = v` on the 4096-byte address space. -/
def memWrite (mem : Nat → Nat) (a v : Nat) : Nat → Nat :=
  fun b => if b = a then v else mem b

/-- cpu.rs: `CPU::execute`, `BCDConversion(x)` arm, verbatim: the three
writes go to `i`, `i + i` and `i + 2` — the middle address is `i + i`, not
`i + 1`.  (Array-bounds panics are not modelled; the claims below only use
in-bounds addresses.) -/
def execBCD (regs : Fin 16 → Nat) (i : Nat) (x : Fin 16)
    (mem : Nat → Nat) : Nat → Nat :=
  let vx := regs x
  memWrite (memWrite (memWrite mem i (vx / 100)) (i + i) ((vx / 10) % 10))
    (i + 2) (vx % 10)

/-- C1: at i = 2 with V0 = 123 and zeroed memory, `BCDConversion(0)` leaves
`memory[i+1] = memory[3]` untouched (0, not the tens digit 2): the tens digit
went to `memory[i+i] = memory[4]`, which the ones digit then overwrote. -/
theorem bcdConversion_bug_at_i2 :
    execBCD (fun j => if j = 0 then 123 else 0) 2 0 (fun _ => 0) 3 ≠
      (123 / 10) % 10 ∧
    execBCD (fun j => if j = 0 then 123 else 0) 2 0 (fun _ => 0) 2 = 123 / 100 ∧
    execBCD (fun j => if j = 0 then 123 else 0) 2 0 (fun _ => 0) 4 = 123 % 10 := by
  refine ⟨by decide, by decide, by decide⟩

/-- ram.rs: `enum RomError` -/
inductive RomError where
  | InvalidRomSize (n : Nat)
deriving DecidableEq

/-- `usize` subtraction as compiled in release mode: wraps modulo 2^64.
(In debug mode an underflow panics instead; either way `load_rom` below
aborts on ROMs larger than 4096 bytes.) -/
def usizeSub (a b : Nat) : Nat :=
  (((a : Int) - (b : Int)) % (2 ^ 64 : Int)).toNat

/-- ram.rs: the `copy_from_slice` into `memory[0x200 .. 0x200+len]`. -/
def copyFromSlice (mem : Nat → Nat) (start : Nat) (rom : List Nat) :
    Nat → Nat :=
  fun a => if start ≤ a ∧ a < start + rom.length then rom.getD (a - start) 0
    else mem a

/-- ram.rs: `Ram::load_rom`.  `none` models a panic: for `rom.length > 4096`
the size guard `memory.len() - rom_data.len()` underflows (wrapping past
0x200 in release), and the subsequent slice `[0x200 .. 0x200+len]` is out of
bounds. -/
def load_rom (mem : Nat → Nat) (rom : List Nat) :
    Option (Except RomError (Nat → Nat)) :=
  if usizeSub MEMORY_SIZE rom.length < 0x200 then
    some (.error (.InvalidRomSize rom.length))
  else if 0x200 + rom.length ≤ MEMORY_SIZE then
    some (.ok (copyFromSlice mem 0x200 rom))
  else none

/-- C3: a 4097-byte ROM does not produce `Err(InvalidRomSize)` — the size
check underflows and `load_rom` panics (aborts). -/
theorem load_rom_panics_on_oversized :
    load_rom (fun _ => 0) (List.replicate 4097 0) = none := by
  simp only [load_rom, List.length_replicate]
  rw [if_neg (by decide), if_neg (by decide)]

/-- cpu.rs: the CPU state touched by `CHIP8::load_rom`; the two timers are
represented by their stored state, which loading never touches. -/
structure CPUState where
  pc : Nat
  i : Nat
  registers : Fin 16 → Nat
  stack : List Nat
  delay_timer : Nat
  sound_timer : Nat

/-- chip8.rs: the whole machine. -/
structure CHIP8State where
  cpu : CPUState
  memory : Nat → Nat

/-- chip8.rs: `CHIP8::load_rom` — it sets `cpu.pc = ROM_START_LOCATION`
before delegating to `Ram::load_rom`, also on the failure path. -/
def chip8_load_rom (s : CHIP8State) (rom : List Nat) :
    Option (CHIP8State × Except RomError Unit) :=
  let s1 : CHIP8State := { s with cpu := { s.cpu with pc := ROM_START_LOCATION } }
  match load_rom s1.memory rom with
  | none => none
  | some (.error e) => some (s1, .error e)
  | some (.ok m) => some ({ s1 with memory := m }, .ok ())

/-- `CHIP8::new()`: zeroed machine (pc = 0, empty stack, zero memory). -/
def initState : CHIP8State :=
  ⟨⟨0, 0, fun _ => 0, [], 0, 0⟩, fun _ => 0⟩

/-- The state left behind by a failed load from `initState`. -/
def failedState : CHIP8State :=
  { initState with cpu := { initState.cpu with pc := ROM_START_LOCATION } }

/-- Evaluation of `CHIP8::load_rom` on a fresh machine and a 3585-byte ROM:
the load fails with `InvalidRomSize(3585)` yet the returned machine has
pc = 0x200. -/
theorem chip8_load_rom_at_3585 :
    chip8_load_rom initState (List.replicate 3585 0) =
      some (failedState, .error (.InvalidRomSize 3585)) := by
  simp only [chip8_load_rom, load_rom, List.length_replicate]
  rw [if_pos (by decide)]
  rfl

/-- C4 counterexample: a failed load from a fresh machine (pc = 0) returns a
machine whose pc is 0x200 — the state is not left unmodified. -/
theorem chip8_load_rom_modifies_pc :
    chip8_load_rom initState (List.replicate 3585 0) =
      some (failedState, .error (.InvalidRomSize 3585)) ∧
    failedState.cpu.pc ≠ initState.cpu.pc :=
  ⟨chip8_load_rom_at_3585, by decide⟩

/-- C4 (amended): when `CHIP8::load_rom` fails, memory, registers, index
register, stack and both timers are unchanged, but the program counter has
been set to 0x200 (so it need not equal its pre-call value). -/
theorem chip8_load_rom_fail_frame (s : CHIP8State) (rom : List Nat)
    (s' : CHIP8State) (e : RomError)
    (h : chip8_load_rom s rom = some (s', .error e)) :
    s'.memory = s.memory ∧ s'.cpu.registers = s.cpu.registers ∧
    s'.cpu.i = s.cpu.i ∧ s'.cpu.stack = s.cpu.stack ∧
    s'.cpu.delay_timer = s.cpu.delay_timer ∧
    s'.cpu.sound_timer = s.cpu.sound_timer ∧
    s'.cpu.pc = ROM_START_LOCATION := by
  simp only [chip8_load_rom] at h
  split at h
  · exact absurd h (by simp)
  · rw [Option.some.injEq, Prod.mk.injEq] at h
    rw [← h.1]
    exact ⟨rfl, rfl, rfl, rfl, rfl, rfl, rfl⟩
  · rw [Option.some.injEq, Prod.mk.injEq] at h
    exact absurd h.2 (by simp)

/-- Witness for C4: the frame property applied to the failed 3585-byte load
from a fresh machine. -/
theorem chip8_load_rom_fail_frame_witness :
    failedState.memory = initState.memory ∧
    failedState.cpu.registers = initState.cpu.registers ∧
    failedState.cpu.i = initState.cpu.i ∧
    failedState.cpu.stack = initState.cpu.stack ∧
    failedState.cpu.delay_timer = initState.cpu.delay_timer ∧
    failedState.cpu.sound_timer = initState.cpu.sound_timer ∧
    failedState.cpu.pc = ROM_START_LOCATION :=
  chip8_load_rom_fail_frame initState (List.replicate 3585 0) failedState
    (.InvalidRomSize 3585) chip8_load_rom_at_3585

/-- timer.rs: the fixed frequency (Hz). -/
def timerFrequency : Nat := 60

/-- timer.rs: `Timer::get_value` — whole ticks observed over `elapsed`
microseconds: `elapsed / (1000000 / frequency)` (= `elapsed / 16666`). -/
def timerTicks (elapsedMicros : Nat) : Nat :=
  elapsedMicros / (1000000 / timerFrequency)

/-- timer.rs: the duration (µs) that `get_value` adds to the reference
instant: `Duration::from_micros(1000000 * ticks)`. -/
def timerAdvanceMicros (elapsedMicros : Nat) : Nat :=
  1000000 * timerTicks elapsedMicros

/-- timer.rs: the value computation of `Timer::get_value` as a function of
the stored value and the observed whole ticks: `0` when ticks exceed the u8
range, otherwise `overflowing_sub` with the result zeroed on underflow. -/
def getValueFromTicks (value ticks : Nat) : Nat :=
  if 255 < ticks then 0
  else
    let t := ticks % 256
    let wrapped := (value + 256 - t) % 256
    wrapped * (if value < t then 0 else 1)

/-- timer.rs: `Timer::get_value` return value given the stored value and the
elapsed wall time in µs since the reference instant. -/
def timerGetValue (value elapsedMicros : Nat) : Nat :=
  getValueFromTicks value (timerTicks elapsedMicros)

/-- C2: after one observed tick (elapsed 16666 µs) the code advances the
reference instant by 1000000 µs — one full second — not by the consumed
whole-tick duration 1/60 s (exactly: an advance `a` µs equals `t/60` s iff
`60 * a = 1000000 * t`, which fails here). -/
theorem timer_advance_bug :
    timerTicks 16666 = 1 ∧
    timerAdvanceMicros 16666 = 1000000 ∧
    timerFrequency * timerAdvanceMicros 16666 ≠ 1000000 * timerTicks 16666 := by
  refine ⟨by decide, by decide, by decide⟩

/-- C9: for a stored byte value, observing `t` whole ticks returns
`max (value - t) 0`: saturating, never wrapping, with the > 255 tick case
clamped to 0. -/
theorem get_value_saturates (value ticks : Nat) (hv : value ≤ 255) :
    (getValueFromTicks value ticks : Int) = max ((value : Int) - ticks) 0 := by
  unfold getValueFromTicks
  split
  · push_cast
    omega
  · dsimp only
    split <;> push_cast <;> omega

/-- Witness for C9: `set_value(255)` followed by 100 observed ticks returns
155. -/
theorem get_value_saturates_witness :
    (getValueFromTicks 255 100 : Int) = max ((255 : Int) - 100) 0 :=
  get_value_saturates 255 100 (by decide)

/-- cpu.rs: one pixel toggle `pixels[y][x] = !pixels[y][x]`. -/
def pxToggle (px : Nat → Nat → Bool) (r c : Nat) : Nat → Nat → Bool :=
  fun a b => if a = r ∧ b = c then !(px r c) else px a b

/-- cpu.rs: the sprite-row bit `((row >> (7 - m)) & 0x01) == 1`. -/
def spriteBit (row m : Nat) : Bool :=
  decide ((row >>> (7 - m)) &&& 1 = 1)

/-- cpu.rs: the inner `for m in 0..8` loop of the `Display` arm.  `k` is the
number of iterations left, `m` the current column offset; returning `st` when
`x_cord + m >= CHIP8_DISPLAY_WIDTH` is the `break`.  The state is the pixel
grid paired with the collision flag destined for VF; the flag reads the pixel
before the toggle, as in the source. -/
def drawCols (nrow xc row : Nat) :
    Nat → Nat → (Nat → Nat → Bool) × Bool → (Nat → Nat → Bool) × Bool
  | 0, _, st => st
  | k + 1, m, st =>
    if CHIP8_DISPLAY_WIDTH ≤ xc + m then st
    else
      let st1 := if spriteBit row m then
          (pxToggle st.1 nrow (xc + m), st.2 || st.1 nrow (xc + m))
        else st
      drawCols nrow xc row k (m + 1) st1

/-- cpu.rs: the outer `for n in 0..height` loop; returning `st` when
`y_cord + n >= CHIP8_DISPLAY_HEIGHT` is the `break`; the sprite row byte is
`memory[i + n]`. -/
def drawRows (xc yc i : Nat) (mem : Nat → Nat) :
    Nat → Nat → (Nat → Nat → Bool) × Bool → (Nat → Nat → Bool) × Bool
  | 0, _, st => st
  | k + 1, n, st =>
    if CHIP8_DISPLAY_HEIGHT ≤ yc + n then st
    else
      drawRows xc yc i mem k (n + 1) (drawCols (yc + n) xc (mem (i + n)) 8 0 st)

/-- cpu.rs: the `Display { x, y, height }` arm acting on the pixel grid,
where `vx`, `vy` are the contents of `registers[x]`, `registers[y]`:
`x_cord = vx % 64`, `y_cord = vy % 32`, VF starts as 0 (false). -/
def drawSprite (px : Nat → Nat → Bool) (mem : Nat → Nat)
    (i vx vy height : Nat) : (Nat → Nat → Bool) × Bool :=
  drawRows (vx % CHIP8_DISPLAY_WIDTH) (vy % CHIP8_DISPLAY_HEIGHT) i mem
    height 0 (px, false)

/-- The XOR mask a `Display` execution applies to the grid: cell (r,c)
toggles iff it lies in the clipped sprite box and the matching sprite bit is
set. -/
def spriteMask (mem : Nat → Nat) (i vx vy height r c : Nat) : Bool :=
  let xc := vx % CHIP8_DISPLAY_WIDTH
  let yc := vy % CHIP8_DISPLAY_HEIGHT
  if yc ≤ r ∧ r < yc + height ∧ r < CHIP8_DISPLAY_HEIGHT ∧
      xc ≤ c ∧ c < xc + 8 ∧ c < CHIP8_DISPLAY_WIDTH then
    spriteBit (mem (i + (r - yc))) (c - xc)
  else false

/-- Column-loop characterisation: pixel (r,c) after the inner loop is the
pixel before, XORed with the sprite bit of the columns the loop touches. -/
theorem drawCols_pixel (nrow xc row : Nat) (k : Nat) :
    ∀ (m : Nat) (st : (Nat → Nat → Bool) × Bool) (r c : Nat),
    (drawCols nrow xc row k m st).1 r c =
      Bool.xor (st.1 r c)
        (if r = nrow ∧ xc + m ≤ c ∧ c < xc + m + k ∧ c < CHIP8_DISPLAY_WIDTH
         then spriteBit row (c - xc) else false) := by
  induction k with
  | zero =>
    intro m st r c
    simp only [drawCols, CHIP8_DISPLAY_WIDTH]
    rw [if_neg (by omega), Bool.xor_false]
  | succ k ih =>
    intro m st r c
    simp only [drawCols, CHIP8_DISPLAY_WIDTH] at *
    split
    · rw [if_neg (by omega), Bool.xor_false]
    · rename_i hnb
      rw [ih]
      by_cases hbit : spriteBit row m = true
      · rw [if_pos hbit]
        by_cases hrc : r = nrow ∧ c = xc + m
        · obtain ⟨hr, hc⟩ := hrc
          subst hr
          subst hc
          dsimp only [pxToggle]
          rw [if_pos ⟨rfl, rfl⟩, if_neg (by omega),
            if_pos ⟨rfl, by omega, by omega, by omega⟩,
            Nat.add_sub_cancel_left, hbit, Bool.xor_false, Bool.xor_true]
        · dsimp only [pxToggle]
          rw [if_neg hrc]
          congr 1
          exact if_congr (by omega) rfl rfl
      · rw [if_neg hbit]
        have hbit0 : spriteBit row m = false := by
          revert hbit
          cases spriteBit row m <;> simp
        by_cases hrc : r = nrow ∧ c = xc + m
        · obtain ⟨hr, hc⟩ := hrc
          subst hr
          subst hc
          rw [if_neg (by omega),
            if_pos ⟨rfl, by omega, by omega, by omega⟩,
            Nat.add_sub_cancel_left, hbit0]
        · congr 1
          exact if_congr (by omega) rfl rfl

set_option linter.unnecessarySeqFocus false in
set_option linter.unusedTactic false in
/-- Row-loop characterisation: pixel (r,c) after the outer loop is the pixel
before, XORed with the matching bit of the sprite rows the loop touches. -/
theorem drawRows_pixel (xc yc i : Nat) (mem : Nat → Nat) (k : Nat) :
    ∀ (n : Nat) (st : (Nat → Nat → Bool) × Bool) (r c : Nat),
    (drawRows xc yc i mem k n st).1 r c =
      Bool.xor (st.1 r c)
        (if yc + n ≤ r ∧ r < yc + n + k ∧ r < CHIP8_DISPLAY_HEIGHT ∧
            xc ≤ c ∧ c < xc + 8 ∧ c < CHIP8_DISPLAY_WIDTH
         then spriteBit (mem (i + (r - yc))) (c - xc) else false) := by
  induction k with
  | zero =>
    intro n st r c
    simp only [drawRows, CHIP8_DISPLAY_HEIGHT, CHIP8_DISPLAY_WIDTH]
    rw [if_neg (by omega), Bool.xor_false]
  | succ k ih =>
    intro n st r c
    simp only [drawRows, CHIP8_DISPLAY_HEIGHT, CHIP8_DISPLAY_WIDTH] at *
    split
    · rw [if_neg (by omega), Bool.xor_false]
    · rename_i hnb
      rw [ih, drawCols_pixel, Bool.xor_assoc]
      simp only [CHIP8_DISPLAY_WIDTH]
      congr 1
      split <;> split <;> split <;> (try omega) <;>
        simp only [Bool.xor_false, Bool.false_xor] <;> (try rfl) <;>
        (congr 2 <;> omega)

/-- `Display` characterised pointwise: the new grid is the old grid XOR the
sprite mask. -/
theorem drawSprite_pixel (px : Nat → Nat → Bool) (mem : Nat → Nat)
    (i vx vy height r c : Nat) :
    (drawSprite px mem i vx vy height).1 r c =
      Bool.xor (px r c) (spriteMask mem i vx vy height r c) := by
  unfold drawSprite spriteMask
  rw [drawRows_pixel]
  rfl

/-- C7: a `Display(x,y,height)` execution with in-bounds sprite reads only
modifies cells at column `(vx mod 64) + m` (`m < 8`) and row
`(vy mod 32) + n` (`n < height`) that lie inside the 64×32 grid; rows and
columns beyond the edges are clipped, never wrapped, and nothing outside the
grid is written.  (`hmem` mirrors the claim's in-bounds proviso; the `Nat`
memory model never traps, so it is not needed by the proof.) -/
theorem drawSprite_clips (px : Nat → Nat → Bool) (mem : Nat → Nat)
    (i vx vy height r c : Nat) (_hmem : i + height ≤ MEMORY_SIZE)
    (hout : ∀ n, n < height → ∀ m, m < 8 →
      ¬(r = vy % CHIP8_DISPLAY_HEIGHT + n ∧ c = vx % CHIP8_DISPLAY_WIDTH + m ∧
        r < CHIP8_DISPLAY_HEIGHT ∧ c < CHIP8_DISPLAY_WIDTH)) :
    (drawSprite px mem i vx vy height).1 r c = px r c := by
  rw [drawSprite_pixel]
  have hmask : spriteMask mem i vx vy height r c = false := by
    simp only [spriteMask, CHIP8_DISPLAY_WIDTH, CHIP8_DISPLAY_HEIGHT] at hout ⊢
    rw [if_neg]
    intro hcond
    obtain ⟨h1, h2, h3, h4, h5, h6⟩ := hcond
    exact hout (r - vy % 32) (by omega) (c - vx % 64) (by omega)
      ⟨by omega, by omega, h3, h6⟩
  rw [hmask, Bool.xor_false]

/-- Witness for C7: an all-dark grid, a one-row sprite at the origin: the
cell (10,10) lies outside the sprite box and keeps its value. -/
theorem drawSprite_clips_witness :
    (drawSprite (fun _ _ => false) (fun _ => 0) 0 0 0 1).1 10 10 = false :=
  drawSprite_clips (fun _ _ => false) (fun _ => 0) 0 0 0 1 10 10 (by decide)
    (by decide)

/-- C8: drawing the same sprite twice — same register contents `vx`, `vy`,
same index register and sprite bytes — restores every pixel (XOR
involution). -/
theorem drawSprite_involution (px : Nat → Nat → Bool) (mem : Nat → Nat)
    (i vx vy height r c : Nat) :
    (drawSprite (drawSprite px mem i vx vy height).1 mem i vx vy height).1 r c
      = px r c := by
  rw [drawSprite_pixel, drawSprite_pixel]
  cases px r c <;> cases spriteMask mem i vx vy height r c <;> rfl

end Chip8
